import Mathlib

/-!
Verification development for the `intelligent-fixer.py` maintenance script.

The script reads each file named in a static table `file_fixes`, applies an
ordered list of regular-expression substitutions (`re.sub` with
`flags=re.MULTILINE`) to its content, and writes the file back only when the
content changed, printing a line for each fixed file, an error line for each
failed file, and a final completion marker.

Shallow embedding:
* Patterns are embedded as token lists (`Regex`).  Every pattern in the
  static table is a sequence of literal characters except one, which also
  uses a greedy whitespace star.  Anchors are included
  because the script always passes the MULTILINE flag, whose effect on the
  anchors is part of the specified behaviour.
* `matchAt` implements leftmost matching at a given position with greedy,
  backtracking star semantics, and `subScan` implements the global
  left-to-right non-overlapping replacement scan of Python's `re.sub`
  (Python 3.7+ empty-match handling included).
* The filesystem is a function from path to readable content
  (`none` models a file whose `open(..., 'r')` or decode raises), together
  with flags describing whether opening for write or writing raises for a
  path, and the text of the exception raised there.  Opening for write
  truncates the file before `f.write` runs, so a failing write leaves an
  empty file on disk; this models CPython's `open(path, 'w')` semantics.
* `fix_file` and `driver` mirror the Python function `fix_file` and the
  module-level driver loop; printed lines are collected in order, and every
  read or write access is recorded in an event log.
-/

/-- Characters accepted by the regex class backslash-s on ASCII input. -/
def isPyWs (c : Char) : Bool :=
  c = ' ' || c = '\t' || c = '\n' || c = '\r' || c = '\x0b' || c = '\x0c'

/-- One token of a pattern: a literal character, a whitespace character,
a greedy star over whitespace, or a MULTILINE line anchor. -/
inductive RTok where
  | lit (c : Char)
  | ws
  | wsStar
  | bol
  | eol
deriving DecidableEq

/-- A pattern is a sequence of tokens. -/
abbrev Regex := List RTok

/-- The pattern consisting of the characters of `s` taken literally. -/
def litRe (s : String) : Regex := s.data.map RTok.lit

/-- Fuelled matcher: match the pattern against `s` starting at position `i`
and return the end position of the match.  `wsStar` is greedy with
backtracking; `bol` and `eol` use MULTILINE semantics (they also match just
after, respectively just before, a newline character).  Every recursive call
decreases the measure `r.length + (s.length - i)`, so any fuel exceeding
that measure gives the fuel-free semantics. -/
def matchAtF (s : List Char) : Regex → Nat → Nat → Option Nat
  | _, _, 0 => none
  | [], i, _ + 1 => some i
  | RTok.lit c :: r, i, fuel + 1 =>
      match s[i]? with
      | some d => if d = c then matchAtF s r (i + 1) fuel else none
      | none => none
  | RTok.ws :: r, i, fuel + 1 =>
      match s[i]? with
      | some d => if isPyWs d then matchAtF s r (i + 1) fuel else none
      | none => none
  | RTok.wsStar :: r, i, fuel + 1 =>
      match s[i]? with
      | some d =>
          if isPyWs d then
            match matchAtF s (RTok.wsStar :: r) (i + 1) fuel with
            | some e => some e
            | none => matchAtF s r i fuel
          else matchAtF s r i fuel
      | none => matchAtF s r i fuel
  | RTok.bol :: r, i, fuel + 1 =>
      if i = 0 then matchAtF s r i fuel
      else
        match s[i - 1]? with
        | some d => if d = '\n' then matchAtF s r i fuel else none
        | none => none
  | RTok.eol :: r, i, fuel + 1 =>
      if i = s.length then matchAtF s r i fuel
      else
        match s[i]? with
        | some d => if d = '\n' then matchAtF s r i fuel else none
        | none => none

/-- Match the pattern against `s` starting at position `i`, with fuel large
enough that the fuelled matcher never runs out. -/
def matchAt (s : List Char) (r : Regex) (i : Nat) : Option Nat :=
  matchAtF s r i (s.length + r.length + 1)

/-- The global replacement scan of Python's `re.sub`: starting at `pos`,
repeatedly find the leftmost match, emit the replacement, and resume after
the match (one character further for an empty match). `fuel` bounds the
recursion; `s.length + 1 - pos` steps always suffice. -/
def subScan (r : Regex) (repl s : List Char) : Nat → Nat → List Char
  | _, 0 => []
  | pos, fuel + 1 =>
      match matchAt s r pos with
      | some e =>
          if pos < e then repl ++ subScan r repl s e fuel
          else
            match s[pos]? with
            | some c => repl ++ c :: subScan r repl s (pos + 1) fuel
            | none => repl
      | none =>
          match s[pos]? with
          | some c => c :: subScan r repl s (pos + 1) fuel
          | none => []

/-- Embedding of the call `re.sub(pattern, repl, content, flags=re.MULTILINE)`
on line 16 of the script. -/
def re_sub (r : Regex) (repl : String) (s : String) : String :=
  ⟨subScan r repl.data s.data 0 (s.data.length + 1)⟩

/-- The substitution loop of `fix_file` (lines 15-16): the left fold of the
single-rule substitution over the rule list, starting from the file content. -/
def applyRules (fixes : List (Regex × String)) (content : String) : String :=
  fixes.foldl (fun acc pr => re_sub pr.1 pr.2 acc) content

/-- Filesystem model.  `files p = none` means reading `p` raises (missing
file, permission error, or undecodable bytes); `openWFail p` means
`open(p, 'w')` raises; `writeFail p` means `f.write` raises after the open
has already truncated the file; `errMsg p` is the text of the exception
raised for `p`. -/
structure FS where
  files : String → Option String
  openWFail : String → Bool
  writeFail : String → Bool
  errMsg : String → String

/-- A recorded filesystem access. -/
inductive FsEvent where
  | read (path : String)
  | write (path : String)
deriving DecidableEq

/-- The path an access touched. -/
def FsEvent.path : FsEvent → String
  | .read p => p
  | .write p => p

/-- Replace the content stored for path `p`. -/
def setFile (fs : FS) (p : String) (c : String) : FS :=
  { fs with files := fun q => if q = p then some c else fs.files q }

/-- Result of one `fix_file` call: the filesystem afterwards, the returned
boolean, the lines the call printed, and the accesses it performed. -/
structure FixResult where
  fs : FS
  changed : Bool
  out : List String
  log : List FsEvent

/-- Embedding of the Python function `fix_file(filepath, fixes)`
(lines 8-24): read the file, fold the substitutions over its content,
rewrite the file only when the result differs, and convert any exception
into a printed diagnostic and a `false` return. -/
def fix_file (fs : FS) (filepath : String) (fixes : List (Regex × String)) :
    FixResult :=
  match fs.files filepath with
  | none =>
      { fs := fs, changed := false
        out := ["Error fixing " ++ filepath ++ ": " ++ fs.errMsg filepath]
        log := [FsEvent.read filepath] }
  | some content =>
      let final := applyRules fixes content
      if final = content then
        { fs := fs, changed := false, out := [], log := [FsEvent.read filepath] }
      else if fs.openWFail filepath then
        { fs := fs, changed := false
          out := ["Error fixing " ++ filepath ++ ": " ++ fs.errMsg filepath]
          log := [FsEvent.read filepath] }
      else if fs.writeFail filepath then
        { fs := setFile fs filepath "", changed := false
          out := ["Error fixing " ++ filepath ++ ": " ++ fs.errMsg filepath]
          log := [FsEvent.read filepath, FsEvent.write filepath] }
      else
        { fs := setFile fs filepath (applyRules fixes content), changed := true
          out := [], log := [FsEvent.read filepath, FsEvent.write filepath] }

/-- Rules for components/featured-verusids-carousel.tsx (lines 28-31). -/
def carouselFixes : List (Regex × String) :=
  [(litRe "const currentID = featuredIDs[currentIndex];",
    "const currentID = featuredIDs[currentIndex];\n\n  if (!currentID) return null;")]

/-- Rules for components/charts/heatmap-calendar.tsx (lines 32-35). -/
def heatmapFixes : List (Regex × String) :=
  [(litRe "toLocaleDateString('en-US'", "toLocaleDateString('en-US' as string"),
   (litRe "const formattedDate = date;", "const formattedDate = date || 'Unknown';")]

/-- Rules for components/interactive-charts.tsx (lines 36-40). -/
def interactiveChartsFixes : List (Regex × String) :=
  [(litRe "miningStats.difficulty", "miningStats?.difficulty"),
   (litRe "miningStats.networkHashrate", "miningStats?.networkHashrate"),
   (litRe "stakingStats.apy", "stakingStats?.apy")]

/-- Rules for components/moving-price-ticker.tsx (lines 41-44). -/
def movingPriceTickerFixes : List (Regex × String) :=
  [(litRe "useEffect(() => \x7b", "useEffect(() => \x7b\n      if (!currentPrice) return;"),
   (litRe "currentPrice.price", "currentPrice?.price ?? 0")]

/-- Rules for components/pull-to-refresh.tsx (lines 45-47). -/
def pullToRefreshFixes : List (Regex × String) :=
  [(litRe "containerRef.current.scrollTop", "containerRef.current?.scrollTop ?? 0")]

/-- Rules for components/quick-stats-ticker.tsx (lines 48-51). -/
def quickStatsFixes : List (Regex × String) :=
  [(litRe "networkStats.connections", "networkStats?.connections"),
   (litRe "stakingStats.networkWeight", "stakingStats?.networkWeight")]

/-- Rules for components/ui/breadcrumb.tsx (lines 52-55). -/
def breadcrumbFixes : List (Regex × String) :=
  [(litRe "firstItem.label", "firstItem?.label"),
   (litRe "firstItem.href", "firstItem?.href")]

/-- Rules for components/i18n-error-boundary.tsx (lines 56-58). -/
def i18nBoundaryFixes : List (Regex × String) :=
  [(litRe "override componentDidCatch", "componentDidCatch")]

/-- Rules for components/blocks-explorer.tsx (lines 59-61); the pattern uses
a greedy whitespace star between the open parenthesis and the argument. -/
def blocksExplorerFixes : List (Regex × String) :=
  [(litRe "calculateTemporalMetrics(" ++ [RTok.wsStar] ++ litRe "block,",
    "calculateTemporalMetrics(\n                  block!,")]

/-- Rules for lib/cache/cache-utils.ts (lines 62-64). -/
def cacheUtilsFixes : List (Regex × String) :=
  [(litRe "result?.value.headers", "result?.value?.headers")]

/-- Rules for lib/database/secure-db-client.ts (lines 65-67). -/
def dbClientFixes : List (Regex × String) :=
  [(litRe "this.pool.query", "this.pool!.query")]

/-- Rules for lib/hooks/use-touch-gestures.ts (lines 68-71). -/
def touchGesturesFixes : List (Regex × String) :=
  [(litRe "event.touches[0].clientX", "event.touches[0]?.clientX ?? 0"),
   (litRe "event.touches[0].clientY", "event.touches[0]?.clientY ?? 0")]

/-- Rules for lib/i18n/utils.ts (lines 72-75). -/
def i18nUtilsFixes : List (Regex × String) :=
  [(litRe "code.split('-')[0]", "code?.split('-')[0] || code || 'en'"),
   (litRe "for (const \x7b code \x7d of languages)",
    "for (const \x7b code \x7d of languages) \x7b\n    if (!code) continue;")]

/-- The static fix table (lines 27-76), in insertion order; Python dicts
iterate in insertion order, so the driver processes entries in this order. -/
def file_fixes : List (String × List (Regex × String)) :=
  [("components/featured-verusids-carousel.tsx", carouselFixes),
   ("components/charts/heatmap-calendar.tsx", heatmapFixes),
   ("components/interactive-charts.tsx", interactiveChartsFixes),
   ("components/moving-price-ticker.tsx", movingPriceTickerFixes),
   ("components/pull-to-refresh.tsx", pullToRefreshFixes),
   ("components/quick-stats-ticker.tsx", quickStatsFixes),
   ("components/ui/breadcrumb.tsx", breadcrumbFixes),
   ("components/i18n-error-boundary.tsx", i18nBoundaryFixes),
   ("components/blocks-explorer.tsx", blocksExplorerFixes),
   ("lib/cache/cache-utils.ts", cacheUtilsFixes),
   ("lib/database/secure-db-client.ts", dbClientFixes),
   ("lib/hooks/use-touch-gestures.ts", touchGesturesFixes),
   ("lib/i18n/utils.ts", i18nUtilsFixes)]

/-- State of the driver run: current filesystem, lines printed so far, and
accesses performed so far. -/
structure RunResult where
  fs : FS
  out : List String
  log : List FsEvent

/-- One iteration of the driver loop (lines 79-81): call `fix_file` and, when
it returned `true`, print the fixed line for the path. -/
def runEntry (acc : RunResult) (entry : String × List (Regex × String)) :
    RunResult :=
  let r := fix_file acc.fs entry.1 entry.2
  { fs := r.fs
    out := acc.out ++ r.out ++ (if r.changed then ["✓ Fixed " ++ entry.1] else [])
    log := acc.log ++ r.log }

/-- The whole driver (lines 78-83): the banner, the loop over the table in
order, and the completion marker. -/
def driver (fs : FS) : RunResult :=
  let r := file_fixes.foldl runEntry
    { fs := fs, out := ["Applying intelligent fixes..."], log := [] }
  { r with out := r.out ++ ["\nDone!"] }

/-- The key of the first table entry. -/
def carouselPath : String := "components/featured-verusids-carousel.tsx"

/-- The line targeted by the carousel rule. -/
def carouselLine : String := "const currentID = featuredIDs[currentIndex];"

/-- The text the carousel rule inserts after the matched line. -/
def carouselGuard : String := "\n\n  if (!currentID) return null;"

/-- Whether a `fix_file` call on this filesystem would find the file readable
and its content fixed by the rules to itself (the unchanged outcome). -/
def unchangedAt (fs : FS) (p : String) (f : List (Regex × String)) : Bool :=
  match fs.files p with
  | some c => applyRules f c == c
  | none => false

/-- A filesystem on which every path reads as the one-character file "x",
which no rule of the table matches, and all writes succeed. -/
def fsAllX : FS :=
  { files := fun _ => some "x", openWFail := fun _ => false
    writeFail := fun _ => false, errMsg := fun _ => "e" }

/-- A filesystem on which every read raises. -/
def fsReadFail : FS :=
  { files := fun _ => none, openWFail := fun _ => false
    writeFail := fun _ => false, errMsg := fun _ => "No such file or directory" }

/-- A filesystem holding exactly the carousel file with its target line. -/
def fsCarousel : FS :=
  { files := fun q => if q = carouselPath then some carouselLine else none
    openWFail := fun _ => false, writeFail := fun _ => false
    errMsg := fun _ => "No such file or directory" }

/-- A filesystem holding the carousel file with its already-patched content. -/
def fsPatchedCarousel : FS :=
  { files := fun q => if q = carouselPath then some (carouselLine ++ carouselGuard) else none
    openWFail := fun _ => false, writeFail := fun _ => false
    errMsg := fun _ => "No such file or directory" }

/-- A filesystem holding the heatmap file with the line its second rule
rewrites. -/
def fsHeatmap : FS :=
  { files := fun q =>
      if q = "components/charts/heatmap-calendar.tsx" then
        some "const formattedDate = date;"
      else none
    openWFail := fun _ => false, writeFail := fun _ => false
    errMsg := fun _ => "No such file or directory" }

/-- A filesystem on which every path reads as the carousel target line and
every write raises after the open has truncated the file. -/
def fsDiskFull : FS :=
  { files := fun _ => some carouselLine, openWFail := fun _ => false
    writeFail := fun _ => true, errMsg := fun _ => "No space left on device" }

/-- The word `w` occurs in `s` at position `p`. -/
def occursAt (w s : List Char) (p : Nat) : Prop :=
  (s.drop p).take w.length = w

instance (w s : List Char) (p : Nat) : Decidable (occursAt w s p) :=
  inferInstanceAs (Decidable ((s.drop p).take w.length = w))

/-- Specification-level replacement, written from the spec's words for a
single rule: every non-overlapping match of the pattern within the buffer is
replaced by the replacement.  Given the positions `(p, e)` of the successive
leftmost matches, copy the text up to each match, emit the replacement in
its place, and continue after it. -/
def replaceMatches (repl s : List Char) : Nat → List (Nat × Nat) → List Char
  | pos, [] => s.drop pos
  | pos, (p, e) :: L =>
      (s.drop pos).take (p - pos) ++ repl ++ replaceMatches repl s e L

/-- The list `L` is the decomposition of `s` from position `pos` on into the
successive leftmost non-overlapping matches of the pattern: each listed pair
is a match, no position strictly between consecutive matches (or before the
first, or after the last) matches, and every match is nonempty and ends
within the buffer. -/
def MatchChain (r : Regex) (s : List Char) : Nat → List (Nat × Nat) → Prop
  | pos, [] => ∀ i, pos ≤ i → i ≤ s.length → matchAt s r i = none
  | pos, (p, e) :: L =>
      pos ≤ p ∧ p < e ∧ e ≤ s.length ∧
      (∀ i, pos ≤ i → i < p → matchAt s r i = none) ∧
      matchAt s r p = some e ∧ MatchChain r s e L

/-- Matching a single literal-character pattern succeeds exactly on that
character and consumes exactly one position. -/
theorem matchAt_single_lit (s : List Char) (ch : Char) (i : Nat) :
    matchAt s [RTok.lit ch] i =
      match s[i]? with
      | some d => if d = ch then some (i + 1) else none
      | none => none := by
  cases hg : s[i]? with
  | none => simp [matchAt, matchAtF, hg]
  | some d => by_cases hd : d = ch <;> simp [matchAt, matchAtF, hg, hd]

/-- When the pattern matches nowhere in `s`, the replacement scan copies the
remaining characters unchanged. -/
theorem subScan_noMatch (r : Regex) (repl s : List Char)
    (h : ∀ i, matchAt s r i = none) :
    ∀ fuel pos, s.length - pos < fuel → subScan r repl s pos fuel = s.drop pos := by
  intro fuel
  induction fuel with
  | zero => intro pos hp; omega
  | succ k ih =>
    intro pos hp
    show (match matchAt s r pos with
      | some e =>
          if pos < e then repl ++ subScan r repl s e k
          else
            match s[pos]? with
            | some c => repl ++ c :: subScan r repl s (pos + 1) k
            | none => repl
      | none =>
          match s[pos]? with
          | some c => c :: subScan r repl s (pos + 1) k
          | none => []) = s.drop pos
    rw [h pos]
    cases hg : s[pos]? with
    | some c =>
        have hlt : pos < s.length := (List.getElem?_eq_some.mp hg).1
        have hc : s[pos] = c := (List.getElem?_eq_some.mp hg).2
        rw [List.drop_eq_getElem_cons hlt, hc, ih (pos + 1) (by omega)]
    | none =>
        have hle : s.length ≤ pos := List.getElem?_eq_none_iff.mp hg
        rw [List.drop_eq_nil_of_le hle]

/-- A substitution whose pattern matches nowhere in the content returns the
content unchanged. -/
theorem re_sub_noMatch (r : Regex) (repl s : String)
    (h : ∀ i, matchAt s.data r i = none) : re_sub r repl s = s := by
  unfold re_sub
  rw [subScan_noMatch r repl.data s.data h (s.data.length + 1) 0 (by omega)]
  rfl

/-- When no rule of the list matches anywhere in the content, the whole rule
fold returns the content unchanged. -/
theorem applyRules_noMatch (f : List (Regex × String)) (c : String)
    (h : ∀ pr ∈ f, ∀ i, matchAt c.data pr.1 i = none) : applyRules f c = c := by
  induction f with
  | nil => rfl
  | cons pr f' ih =>
      show applyRules f' (re_sub pr.1 pr.2 c) = c
      rw [re_sub_noMatch pr.1 pr.2 c (h pr (List.mem_cons_self pr f'))]
      exact ih fun q hq => h q (List.mem_cons_of_mem pr hq)

/-- The replacement scan for a single literal-character pattern rewrites every
occurrence of the character, and nothing else, in the part of the buffer it
scans. -/
theorem subScan_lit (ch : Char) (repl s : List Char) :
    ∀ fuel pos, s.length - pos < fuel →
      subScan [RTok.lit ch] repl s pos fuel
        = (s.drop pos).flatMap (fun c => if c = ch then repl else [c]) := by
  intro fuel
  induction fuel with
  | zero => intro pos hp; omega
  | succ k ih =>
    intro pos hp
    show (match matchAt s [RTok.lit ch] pos with
      | some e =>
          if pos < e then repl ++ subScan [RTok.lit ch] repl s e k
          else
            match s[pos]? with
            | some c => repl ++ c :: subScan [RTok.lit ch] repl s (pos + 1) k
            | none => repl
      | none =>
          match s[pos]? with
          | some c => c :: subScan [RTok.lit ch] repl s (pos + 1) k
          | none => []) = _
    rw [matchAt_single_lit]
    cases hg : s[pos]? with
    | none =>
        have hle : s.length ≤ pos := List.getElem?_eq_none_iff.mp hg
        rw [List.drop_eq_nil_of_le hle]
        rfl
    | some d =>
        have hlt : pos < s.length := (List.getElem?_eq_some.mp hg).1
        have hd : s[pos] = d := (List.getElem?_eq_some.mp hg).2
        rw [List.drop_eq_getElem_cons hlt, hd, List.flatMap_cons]
        by_cases hdc : d = ch
        · simp only [hdc, if_pos rfl, Nat.lt_succ_self, if_true]
          rw [ih (pos + 1) (by omega)]
        · simp only [if_neg hdc]
          rw [ih (pos + 1) (by omega)]
          rfl

/-- Substitution of a single literal character replaces every occurrence of
that character in the content by the replacement text. -/
theorem re_sub_lit (ch : Char) (repl s : String) :
    re_sub [RTok.lit ch] repl s
      = ⟨s.data.flatMap fun c => if c = ch then repl.data else [c]⟩ := by
  unfold re_sub
  rw [subScan_lit ch repl.data s.data (s.data.length + 1) 0 (by omega)]
  rfl

/-- Characterwise replacement is the identity on a character list free of the
replaced character. -/
theorem flatMap_lit_eq_self (ch : Char) (repl : List Char) :
    ∀ l : List Char, ch ∉ l →
      (l.flatMap fun c => if c = ch then repl else [c]) = l := by
  intro l
  induction l with
  | nil => intro _; rfl
  | cons x l' ih =>
      intro hx
      rw [List.flatMap_cons, if_neg (by intro h; exact hx (h ▸ List.mem_cons_self x l')),
        ih fun h => hx (List.mem_cons_of_mem x h)]
      rfl

/-- A leading line-start anchor matches exactly at position 0 or just after a
newline (MULTILINE semantics), consuming nothing. -/
theorem matchAt_bol (s : List Char) (r : Regex) (i : Nat) :
    matchAt s (RTok.bol :: r) i =
      if i = 0 ∨ s[i - 1]? = some '\n' then matchAt s r i else none := by
  show (if i = 0 then matchAt s r i
        else match s[i - 1]? with
          | some d => if d = '\n' then matchAt s r i else none
          | none => none) = _
  by_cases hi : i = 0
  · rw [if_pos hi, if_pos (Or.inl hi)]
  · rw [if_neg hi]
    cases hg : s[i - 1]? with
    | none => rw [if_neg (by simp [hi, hg])]
    | some d =>
        by_cases hd : d = '\n'
        · subst hd
          simp [hg]
        · simp only [if_neg hd]
          rw [if_neg (by simp [hi, hg, hd])]

/-- A leading line-end anchor matches exactly at the end of the buffer or just
before a newline (MULTILINE semantics), consuming nothing. -/
theorem matchAt_eol (s : List Char) (r : Regex) (i : Nat) :
    matchAt s (RTok.eol :: r) i =
      if i = s.length ∨ s[i]? = some '\n' then matchAt s r i else none := by
  show (if i = s.length then matchAt s r i
        else match s[i]? with
          | some d => if d = '\n' then matchAt s r i else none
          | none => none) = _
  by_cases hi : i = s.length
  · rw [if_pos hi, if_pos (Or.inl hi)]
  · rw [if_neg hi]
    cases hg : s[i]? with
    | none => rw [if_neg (by simp [hi, hg])]
    | some d =>
        by_cases hd : d = '\n'
        · subst hd
          simp [hg]
        · simp only [if_neg hd]
          rw [if_neg (by simp [hi, hg, hd])]

/-- Matching a pattern beginning with a literal character consumes exactly
that character. -/
theorem matchAt_lit_cons (s : List Char) (c : Char) (r : Regex) (i : Nat) :
    matchAt s (RTok.lit c :: r) i =
      match s[i]? with
      | some d => if d = c then matchAt s r (i + 1) else none
      | none => none := by
  cases hg : s[i]? with
  | none => simp [matchAt, matchAtF, hg]
  | some d => by_cases hd : d = c <;> simp [matchAt, matchAtF, hg, hd, Nat.add_assoc]

/-- Matching a fully literal pattern succeeds exactly at the occurrences of
its word, consuming exactly the word. -/
theorem matchAt_lits (s : List Char) :
    ∀ (w : List Char) (i : Nat),
      matchAt s (w.map RTok.lit) i
        = if occursAt w s i then some (i + w.length) else none := by
  intro w
  induction w with
  | nil => intro i; simp [matchAt, matchAtF, occursAt]
  | cons c w' ih =>
      intro i
      cases hg : s[i]? with
      | none =>
          have hle : s.length ≤ i := List.getElem?_eq_none_iff.mp hg
          have hstep : matchAt s (List.map RTok.lit (c :: w')) i = none := by
            rw [List.map_cons, matchAt_lit_cons, hg]
          rw [hstep, if_neg (by simp [occursAt, List.drop_eq_nil_of_le hle])]
      | some d =>
          have hlt : i < s.length := (List.getElem?_eq_some.mp hg).1
          have hdi : s[i] = d := (List.getElem?_eq_some.mp hg).2
          have hdrop : s.drop i = d :: s.drop (i + 1) := by
            rw [List.drop_eq_getElem_cons hlt, hdi]
          have hstep : matchAt s (List.map RTok.lit (c :: w')) i
              = if d = c then matchAt s (List.map RTok.lit w') (i + 1) else none := by
            rw [List.map_cons, matchAt_lit_cons, hg]
          rw [hstep]
          by_cases hd : d = c
          · subst hd
            rw [if_pos rfl, ih (i + 1)]
            have hiff : occursAt (d :: w') s i ↔ occursAt w' s (i + 1) := by
              unfold occursAt
              rw [hdrop, List.length_cons, List.take_succ_cons]
              simp
            by_cases ho : occursAt w' s (i + 1)
            · rw [if_pos ho, if_pos (hiff.mpr ho)]
              congr 1
              simp [List.length_cons]
              omega
            · rw [if_neg ho, if_neg (fun h => ho (hiff.mp h))]
          · rw [if_neg hd, if_neg ?_]
            intro h
            unfold occursAt at h
            rw [hdrop, List.length_cons, List.take_succ_cons] at h
            injection h with h1 h2
            exact hd h1

/-- A match that starts inside the buffer also ends inside it: a fuelled
match never consumes past the end of the buffer. -/
theorem matchAtF_le (s : List Char) :
    ∀ (fuel : Nat) (r : Regex) (i e : Nat), i ≤ s.length →
      matchAtF s r i fuel = some e → e ≤ s.length := by
  intro fuel
  induction fuel with
  | zero =>
      intro r i e hi hm
      exact absurd hm (by simp [matchAtF])
  | succ fuel ih =>
      intro r i e hi hm
      cases r with
      | nil =>
          have he : i = e := by simpa [matchAtF] using hm
          omega
      | cons t r =>
          cases t with
          | lit c =>
              simp only [matchAtF] at hm
              split at hm
              next d heq =>
                split at hm
                · have hlt : i < s.length := (List.getElem?_eq_some.mp heq).1
                  exact ih r (i + 1) e (by omega) hm
                · exact absurd hm (by simp)
              next heq => exact absurd hm (by simp)
          | ws =>
              simp only [matchAtF] at hm
              split at hm
              next d heq =>
                split at hm
                · have hlt : i < s.length := (List.getElem?_eq_some.mp heq).1
                  exact ih r (i + 1) e (by omega) hm
                · exact absurd hm (by simp)
              next heq => exact absurd hm (by simp)
          | wsStar =>
              simp only [matchAtF] at hm
              split at hm
              next d heq =>
                split at hm
                · have hlt : i < s.length := (List.getElem?_eq_some.mp heq).1
                  split at hm
                  next e' heq2 =>
                    injection hm with hm'
                    subst hm'
                    exact ih (RTok.wsStar :: r) (i + 1) e' (by omega) heq2
                  next heq2 => exact ih r i e hi hm
                · exact ih r i e hi hm
              next heq => exact ih r i e hi hm
          | bol =>
              simp only [matchAtF] at hm
              split at hm
              · exact ih r i e hi hm
              · split at hm
                next d heq =>
                  split at hm
                  · exact ih r i e hi hm
                  · exact absurd hm (by simp)
                next heq => exact absurd hm (by simp)
          | eol =>
              simp only [matchAtF] at hm
              split at hm
              · exact ih r i e hi hm
              · split at hm
                next d heq =>
                  split at hm
                  · exact ih r i e hi hm
                  · exact absurd hm (by simp)
                next heq => exact absurd hm (by simp)

/-- A match that starts inside the buffer also ends inside it. -/
theorem matchAt_some_le (s : List Char) (r : Regex) (i e : Nat)
    (hi : i ≤ s.length) (hm : matchAt s r i = some e) : e ≤ s.length :=
  matchAtF_le s (s.length + r.length + 1) r i e hi hm

/-- The replacement scan does not depend on the fuel once the fuel exceeds
the number of remaining positions. -/
theorem subScan_fuel (r : Regex) (repl s : List Char) :
    ∀ (f1 pos f2 : Nat), pos ≤ s.length → s.length - pos < f1 → s.length - pos < f2 →
      subScan r repl s pos f1 = subScan r repl s pos f2 := by
  intro f1
  induction f1 with
  | zero => intro pos f2 hp h1 h2; omega
  | succ f1 ih =>
    intro pos f2 hp h1 h2
    cases f2 with
    | zero => omega
    | succ f2 =>
      show (match matchAt s r pos with
        | some e =>
            if pos < e then repl ++ subScan r repl s e f1
            else
              match s[pos]? with
              | some c => repl ++ c :: subScan r repl s (pos + 1) f1
              | none => repl
        | none =>
            match s[pos]? with
            | some c => c :: subScan r repl s (pos + 1) f1
            | none => []) =
        (match matchAt s r pos with
        | some e =>
            if pos < e then repl ++ subScan r repl s e f2
            else
              match s[pos]? with
              | some c => repl ++ c :: subScan r repl s (pos + 1) f2
              | none => repl
        | none =>
            match s[pos]? with
            | some c => c :: subScan r repl s (pos + 1) f2
            | none => [])
      cases hm : matchAt s r pos with
      | some e =>
          have hes : e ≤ s.length := matchAt_some_le s r pos e hp hm
          by_cases he : pos < e
          · simp only [hm, if_pos he]
            rw [ih e f2 hes (by omega) (by omega)]
          · simp only [hm, if_neg he]
            cases hg : s[pos]? with
            | some c =>
                have hlt : pos < s.length := (List.getElem?_eq_some.mp hg).1
                simp only [hg]
                rw [ih (pos + 1) f2 (by omega) (by omega) (by omega)]
            | none => simp only [hg]
      | none =>
          cases hg : s[pos]? with
          | some c =>
              have hlt : pos < s.length := (List.getElem?_eq_some.mp hg).1
              simp only [hm, hg]
              rw [ih (pos + 1) f2 (by omega) (by omega) (by omega)]
          | none => simp only [hm, hg]

/-- When the pattern matches nowhere from `q` to the end of the buffer, the
replacement scan copies the remaining characters unchanged. -/
theorem subScan_none_from (r : Regex) (repl s : List Char) (pos : Nat)
    (h : ∀ i, pos ≤ i → i ≤ s.length → matchAt s r i = none) :
    ∀ fuel q, pos ≤ q → q ≤ s.length → s.length - q < fuel →
      subScan r repl s q fuel = s.drop q := by
  intro fuel
  induction fuel with
  | zero => intro q hq hqs hb; omega
  | succ k ih =>
    intro q hq hqs hb
    show (match matchAt s r q with
      | some e =>
          if q < e then repl ++ subScan r repl s e k
          else
            match s[q]? with
            | some c => repl ++ c :: subScan r repl s (q + 1) k
            | none => repl
      | none =>
          match s[q]? with
          | some c => c :: subScan r repl s (q + 1) k
          | none => []) = s.drop q
    rw [h q hq hqs]
    cases hg : s[q]? with
    | some c =>
        have hlt : q < s.length := (List.getElem?_eq_some.mp hg).1
        have hc : s[q] = c := (List.getElem?_eq_some.mp hg).2
        rw [List.drop_eq_getElem_cons hlt, hc, ih (q + 1) (by omega) (by omega) (by omega)]
    | none =>
        have hle : s.length ≤ q := List.getElem?_eq_none_iff.mp hg
        rw [List.drop_eq_nil_of_le hle]

/-- One scan step over a nonempty match emits the replacement and resumes
after the match. -/
theorem subScan_step_match (r : Regex) (repl s : List Char) (p e f : Nat)
    (hm : matchAt s r p = some e) (hpe : p < e) :
    subScan r repl s p (f + 1) = repl ++ subScan r repl s e f := by
  show (match matchAt s r p with
    | some e' =>
        if p < e' then repl ++ subScan r repl s e' f
        else
          match s[p]? with
          | some c => repl ++ c :: subScan r repl s (p + 1) f
          | none => repl
    | none =>
        match s[p]? with
        | some c => c :: subScan r repl s (p + 1) f
        | none => []) = _
  rw [hm]
  simp [hpe]

/-- Over a match-free region the scan copies the region verbatim and then
continues from its end, with any sufficient fuel. -/
theorem subScan_copy (r : Regex) (repl s : List Char) :
    ∀ (n pos f1 f2 : Nat), pos + n ≤ s.length →
      s.length - pos < f1 → s.length - (pos + n) < f2 →
      (∀ i, pos ≤ i → i < pos + n → matchAt s r i = none) →
      subScan r repl s pos f1 = (s.drop pos).take n ++ subScan r repl s (pos + n) f2 := by
  intro n
  induction n with
  | zero =>
      intro pos f1 f2 hle h1 h2 hno
      rw [List.take_zero, List.nil_append]
      exact subScan_fuel r repl s f1 pos f2 (by omega) h1 (by simpa using h2)
  | succ n ih =>
      intro pos f1 f2 hle h1 h2 hno
      cases f1 with
      | zero => omega
      | succ f1 =>
        have hlt : pos < s.length := by omega
        have hg : s[pos]? = some s[pos] := List.getElem?_eq_getElem hlt
        show (match matchAt s r pos with
          | some e =>
              if pos < e then repl ++ subScan r repl s e f1
              else
                match s[pos]? with
                | some c => repl ++ c :: subScan r repl s (pos + 1) f1
                | none => repl
          | none =>
              match s[pos]? with
              | some c => c :: subScan r repl s (pos + 1) f1
              | none => []) = _
        rw [hno pos (Nat.le_refl pos) (by omega), hg]
        have h3 : pos + 1 + n = pos + (n + 1) := by omega
        rw [ih (pos + 1) f1 f2 (by omega) (by omega) (by rw [h3]; exact h2)
          (fun i hi1 hi2 => hno i (by omega) (by omega))]
        rw [List.drop_eq_getElem_cons hlt, List.take_succ_cons, h3]
        rfl

/-- The scan, hence the source's substitution, agrees with the
specification-level replacement of every non-overlapping match: given the
decomposition of the buffer into its successive leftmost matches, each match
is replaced and everything in between is copied. -/
theorem subScan_chain (r : Regex) (repl s : List Char) :
    ∀ (L : List (Nat × Nat)) (pos fuel : Nat), pos ≤ s.length →
      s.length - pos < fuel → MatchChain r s pos L →
      subScan r repl s pos fuel = replaceMatches repl s pos L := by
  intro L
  induction L with
  | nil =>
      intro pos fuel hp hb hch
      exact subScan_none_from r repl s pos hch fuel pos (Nat.le_refl pos) hp hb
  | cons pe L ih =>
      obtain ⟨p, e⟩ := pe
      intro pos fuel hp hb hch
      obtain ⟨hpp, hpe, hel, hgap, hm, hch'⟩ := hch
      have hps : p ≤ s.length := by omega
      have hcopy := subScan_copy r repl s (p - pos) pos fuel ((s.length - p) + 1)
        (by omega) hb (by omega)
        (fun i hi1 hi2 => hgap i hi1 (by omega))
      have hpn : pos + (p - pos) = p := by omega
      rw [hpn] at hcopy
      rw [hcopy, subScan_step_match r repl s p e (s.length - p) hm hpe]
      rw [subScan_fuel r repl s (s.length - p) e ((s.length - e) + 1) hel (by omega) (by omega)]
      rw [ih e ((s.length - e) + 1) hel (by omega) hch']
      show (s.drop pos).take (p - pos) ++ (repl ++ replaceMatches repl s e L)
        = (s.drop pos).take (p - pos) ++ repl ++ replaceMatches repl s e L
      rw [List.append_assoc]

/-- The substitution of the source agrees with the specification-level
replacement: for every pattern, replacement and buffer, given the buffer's
decomposition into its successive leftmost non-overlapping matches, the
result replaces every one of those matches and copies everything else. -/
theorem re_sub_chain (r : Regex) (repl s : List Char) (L : List (Nat × Nat))
    (h : MatchChain r s 0 L) :
    re_sub r ⟨repl⟩ ⟨s⟩ = ⟨replaceMatches repl s 0 L⟩ := by
  show (⟨subScan r repl s 0 (s.length + 1)⟩ : String) = _
  exact congrArg String.mk
    (subScan_chain r repl s L 0 (s.length + 1) (Nat.zero_le _) (by omega) h)

/-- For a fully literal pattern with two planted occurrences of its word and
no other occurrence anywhere in the buffer, the substitution replaces both
occurrences — not only the first — and copies the rest verbatim. -/
theorem re_sub_two_occurrences (w a b c repl : List Char) (hw : w ≠ [])
    (h1 : ∀ p, p < a.length → ¬ occursAt w (a ++ (w ++ (b ++ (w ++ c)))) p)
    (h2 : ∀ p, p < a.length + w.length + b.length →
       a.length + w.length ≤ p → ¬ occursAt w (a ++ (w ++ (b ++ (w ++ c)))) p)
    (h3 : ∀ p, p < (a ++ (w ++ (b ++ (w ++ c)))).length + 1 →
       a.length + w.length + b.length + w.length ≤ p →
       ¬ occursAt w (a ++ (w ++ (b ++ (w ++ c)))) p) :
    re_sub (litRe ⟨w⟩) ⟨repl⟩ ⟨a ++ (w ++ (b ++ (w ++ c)))⟩
      = ⟨a ++ (repl ++ (b ++ (repl ++ c)))⟩ := by
  have hws : 0 < w.length := List.length_pos.mpr hw
  have hlen : (a ++ (w ++ (b ++ (w ++ c)))).length
      = a.length + w.length + b.length + w.length + c.length := by
    simp [List.length_append]
    omega
  have hdropA : (a ++ (w ++ (b ++ (w ++ c)))).drop a.length = w ++ (b ++ (w ++ c)) :=
    List.drop_left a _
  have htakeA : (a ++ (w ++ (b ++ (w ++ c)))).take a.length = a := List.take_left a _
  have hocc1 : occursAt w (a ++ (w ++ (b ++ (w ++ c)))) a.length := by
    unfold occursAt
    rw [hdropA]
    exact List.take_left w _
  have hassocB : a ++ (w ++ (b ++ (w ++ c))) = (a ++ w) ++ (b ++ (w ++ c)) := by
    simp [List.append_assoc]
  have hdropB : (a ++ (w ++ (b ++ (w ++ c)))).drop (a.length + w.length)
      = b ++ (w ++ c) := by
    rw [hassocB]
    exact List.drop_left' (by simp only [List.length_append])
  have hassocC : a ++ (w ++ (b ++ (w ++ c))) = ((a ++ w) ++ b) ++ (w ++ c) := by
    simp [List.append_assoc]
  have hdropC : (a ++ (w ++ (b ++ (w ++ c)))).drop (a.length + w.length + b.length)
      = w ++ c := by
    rw [hassocC]
    exact List.drop_left' (by simp only [List.length_append])
  have hocc2 : occursAt w (a ++ (w ++ (b ++ (w ++ c)))) (a.length + w.length + b.length) := by
    unfold occursAt
    rw [hdropC]
    exact List.take_left w c
  have hassocD : a ++ (w ++ (b ++ (w ++ c))) = (((a ++ w) ++ b) ++ w) ++ c := by
    simp [List.append_assoc]
  have hdropD : (a ++ (w ++ (b ++ (w ++ c)))).drop
      (a.length + w.length + b.length + w.length) = c := by
    rw [hassocD]
    exact List.drop_left' (by simp only [List.length_append])
  have hchain : MatchChain (List.map RTok.lit w) (a ++ (w ++ (b ++ (w ++ c)))) 0
      [(a.length, a.length + w.length),
       (a.length + w.length + b.length, a.length + w.length + b.length + w.length)] := by
    refine ⟨Nat.zero_le _, by omega, by omega, ?_, ?_,
      by omega, by omega, by omega, ?_, ?_, ?_⟩
    · intro i _ hi
      rw [matchAt_lits _ w i, if_neg (h1 i hi)]
    · rw [matchAt_lits _ w a.length, if_pos hocc1]
    · intro i hi1 hi2
      rw [matchAt_lits _ w i, if_neg (h2 i hi2 hi1)]
    · rw [matchAt_lits _ w (a.length + w.length + b.length), if_pos hocc2]
    · intro i hi1 hi2
      rw [matchAt_lits _ w i, if_neg (h3 i (by omega) hi1)]
  have hmain := re_sub_chain (List.map RTok.lit w) repl (a ++ (w ++ (b ++ (w ++ c))))
    [(a.length, a.length + w.length),
     (a.length + w.length + b.length, a.length + w.length + b.length + w.length)] hchain
  have hsubB : a.length + w.length + b.length - (a.length + w.length) = b.length := by omega
  have hRM : replaceMatches repl (a ++ (w ++ (b ++ (w ++ c)))) 0
      [(a.length, a.length + w.length),
       (a.length + w.length + b.length, a.length + w.length + b.length + w.length)]
      = a ++ (repl ++ (b ++ (repl ++ c))) := by
    show ((a ++ (w ++ (b ++ (w ++ c)))).drop 0).take (a.length - 0) ++ repl ++
        (((a ++ (w ++ (b ++ (w ++ c)))).drop (a.length + w.length)).take
            (a.length + w.length + b.length - (a.length + w.length)) ++ repl ++
          (a ++ (w ++ (b ++ (w ++ c)))).drop (a.length + w.length + b.length + w.length))
      = a ++ (repl ++ (b ++ (repl ++ c)))
    rw [List.drop_zero, Nat.sub_zero, htakeA, hdropB, hsubB,
      List.take_left b (w ++ c), hdropD]
    simp [List.append_assoc]
  exact hmain.trans (congrArg String.mk hRM)

/-- A read failure makes `fix_file` print the diagnostic naming the path and
the cause, leave the filesystem alone, and return false. -/
theorem fix_file_none (fs : FS) (p : String) (f : List (Regex × String))
    (h : fs.files p = none) :
    fix_file fs p f =
      { fs := fs, changed := false
        out := ["Error fixing " ++ p ++ ": " ++ fs.errMsg p]
        log := [FsEvent.read p] } := by
  unfold fix_file
  rw [h]

/-- When the rules leave the content unchanged, `fix_file` performs no write,
prints nothing, and returns false. -/
theorem fix_file_unchanged (fs : FS) (p : String) (f : List (Regex × String))
    (c : String) (h : fs.files p = some c) (hc : applyRules f c = c) :
    fix_file fs p f =
      { fs := fs, changed := false, out := [], log := [FsEvent.read p] } := by
  unfold fix_file
  rw [h]
  simp [hc]

/-- When the content changed but opening for write raises, `fix_file` prints
the diagnostic, leaves the filesystem alone, and returns false. -/
theorem fix_file_openWFail (fs : FS) (p : String) (f : List (Regex × String))
    (c : String) (h : fs.files p = some c) (hc : applyRules f c ≠ c)
    (hw : fs.openWFail p = true) :
    fix_file fs p f =
      { fs := fs, changed := false
        out := ["Error fixing " ++ p ++ ": " ++ fs.errMsg p]
        log := [FsEvent.read p] } := by
  unfold fix_file
  rw [h]
  simp [hc, hw]

/-- When the content changed, the open succeeded, and the write itself raises,
`fix_file` prints the diagnostic and returns false, but the open has already
truncated the file to empty content. -/
theorem fix_file_writeFail (fs : FS) (p : String) (f : List (Regex × String))
    (c : String) (h : fs.files p = some c) (hc : applyRules f c ≠ c)
    (hw : fs.openWFail p = false) (hw2 : fs.writeFail p = true) :
    fix_file fs p f =
      { fs := setFile fs p "", changed := false
        out := ["Error fixing " ++ p ++ ": " ++ fs.errMsg p]
        log := [FsEvent.read p, FsEvent.write p] } := by
  unfold fix_file
  rw [h]
  simp [hc, hw, hw2]

/-- When the content changed and both the open and the write succeed,
`fix_file` overwrites the file with the final buffer and returns true. -/
theorem fix_file_write (fs : FS) (p : String) (f : List (Regex × String))
    (c : String) (h : fs.files p = some c) (hc : applyRules f c ≠ c)
    (hw : fs.openWFail p = false) (hw2 : fs.writeFail p = false) :
    fix_file fs p f =
      { fs := setFile fs p (applyRules f c), changed := true
        out := [], log := [FsEvent.read p, FsEvent.write p] } := by
  unfold fix_file
  rw [h]
  simp [hc, hw, hw2]

/-- A `fix_file` call never changes the stored content of any other path. -/
theorem fix_file_files_of_ne (fs : FS) (p : String) (f : List (Regex × String))
    (q : String) (h : q ≠ p) : (fix_file fs p f).fs.files q = fs.files q := by
  cases hc : fs.files p with
  | none => rw [fix_file_none fs p f hc]
  | some c =>
      by_cases h1 : applyRules f c = c
      · rw [fix_file_unchanged fs p f c hc h1]
      · by_cases h2 : fs.openWFail p = true
        · rw [fix_file_openWFail fs p f c hc h1 h2]
        · by_cases h3 : fs.writeFail p = true
          · rw [fix_file_writeFail fs p f c hc h1 (by simpa using h2) h3]
            simp [setFile, h]
          · rw [fix_file_write fs p f c hc h1 (by simpa using h2) (by simpa using h3)]
            simp [setFile, h]

/-- Every access a `fix_file` call performs is on its own path. -/
theorem fix_file_log_path (fs : FS) (p : String) (f : List (Regex × String)) :
    ∀ ev ∈ (fix_file fs p f).log, ev.path = p := by
  intro ev hev
  cases hc : fs.files p with
  | none =>
      rw [fix_file_none fs p f hc] at hev
      simp at hev
      subst hev; rfl
  | some c =>
      by_cases h1 : applyRules f c = c
      · rw [fix_file_unchanged fs p f c hc h1] at hev
        simp at hev
        subst hev; rfl
      · by_cases h2 : fs.openWFail p = true
        · rw [fix_file_openWFail fs p f c hc h1 h2] at hev
          simp at hev
          subst hev; rfl
        · by_cases h3 : fs.writeFail p = true
          · rw [fix_file_writeFail fs p f c hc h1 (by simpa using h2) h3] at hev
            simp at hev
            rcases hev with h4 | h4 <;> (subst h4; rfl)
          · rw [fix_file_write fs p f c hc h1 (by simpa using h2) (by simpa using h3)] at hev
            simp at hev
            rcases hev with h4 | h4 <;> (subst h4; rfl)

/-- The driver loop only ever appends to the printed output. -/
theorem foldl_runEntry_out (l : List (String × List (Regex × String))) :
    ∀ acc : RunResult, ∃ t, (l.foldl runEntry acc).out = acc.out ++ t := by
  induction l with
  | nil => intro acc; exact ⟨[], by simp⟩
  | cons e l' ih =>
      intro acc
      obtain ⟨t, ht⟩ := ih (runEntry acc e)
      refine ⟨(fix_file acc.fs e.1 e.2).out
        ++ (if (fix_file acc.fs e.1 e.2).changed then ["✓ Fixed " ++ e.1] else []) ++ t, ?_⟩
      rw [List.foldl_cons, ht]
      show (runEntry acc e).out ++ t = _
      simp [runEntry, List.append_assoc]

/-- The first printed line of a run is the banner. -/
theorem driver_out_head (fs : FS) :
    (driver fs).out.head? = some "Applying intelligent fixes..." := by
  unfold driver
  obtain ⟨t, ht⟩ := foldl_runEntry_out file_fixes
    { fs := fs, out := ["Applying intelligent fixes..."], log := [] }
  simp [ht]

/-- The last printed line of a run is always the completion marker: the driver
reaches it whatever happened to the individual files. -/
theorem driver_out_last (fs : FS) : (driver fs).out.getLast? = some "\nDone!" := by
  unfold driver
  exact List.getLast?_concat _

/-- A run leaves every path distinct from all the keys it folds over intact. -/
theorem foldl_runEntry_files (q : String) :
    ∀ (l : List (String × List (Regex × String))) (acc : RunResult),
      (∀ e ∈ l, q ≠ e.1) → ((l.foldl runEntry acc).fs).files q = acc.fs.files q := by
  intro l
  induction l with
  | nil => intro acc _; rfl
  | cons e l' ih =>
      intro acc h
      rw [List.foldl_cons,
        ih (runEntry acc e) (fun e' he' => h e' (List.mem_cons_of_mem e he'))]
      show (fix_file acc.fs e.1 e.2).fs.files q = acc.fs.files q
      exact fix_file_files_of_ne acc.fs e.1 e.2 q (h e (List.mem_cons_self e l'))

/-- Every access the loop performs beyond the accumulator's is on a key of the
list it folds over. -/
theorem foldl_runEntry_log :
    ∀ (l : List (String × List (Regex × String))) (acc : RunResult) (ev : FsEvent),
      ev ∈ (l.foldl runEntry acc).log → ev ∈ acc.log ∨ ∃ e ∈ l, ev.path = e.1 := by
  intro l
  induction l with
  | nil => intro acc ev h; exact Or.inl h
  | cons e l' ih =>
      intro acc ev h
      rw [List.foldl_cons] at h
      rcases ih (runEntry acc e) ev h with h1 | h2
      · have h1' : ev ∈ acc.log ++ (fix_file acc.fs e.1 e.2).log := h1
        rcases List.mem_append.mp h1' with ha | hb
        · exact Or.inl ha
        · exact Or.inr ⟨e, List.mem_cons_self e l', fix_file_log_path acc.fs e.1 e.2 ev hb⟩
      · obtain ⟨e', he', hp⟩ := h2
        exact Or.inr ⟨e', List.mem_cons_of_mem e he', hp⟩

/-- C1 (counterexample): on a filesystem where every listed file reads as
"x", every file is processed and left unchanged, yet the run prints only the
banner and the completion marker — the unchanged carousel file (readable,
content untouched, no error) gets no per-file status line, contradicting the
claim that every processed entry gets exactly one status line. -/
theorem C1_counterexample :
    fsAllX.files carouselPath = some "x" ∧
    (fix_file fsAllX carouselPath carouselFixes).out = [] ∧
    (fix_file fsAllX carouselPath carouselFixes).changed = false ∧
    (driver fsAllX).out = ["Applying intelligent fixes...", "\nDone!"] := by
  exact ⟨rfl, by decide, by decide, by decide⟩

/-- C1 (amended): the run prints the banner first and the completion marker
last, and each table entry contributes exactly one status line when its file
is fixed or errors, and no line at all when its content is left unchanged. -/
theorem C1_per_file_output : ∀ (fs : FS) (p : String) (f : List (Regex × String)),
    ((driver fs).out.head? = some "Applying intelligent fixes...") ∧
    ((driver fs).out.getLast? = some "\nDone!") ∧
    (((fix_file fs p f).out
        ++ (if (fix_file fs p f).changed then ["✓ Fixed " ++ p] else [])).length
      = if unchangedAt fs p f then 0 else 1) := by
  intro fs p f
  refine ⟨driver_out_head fs, driver_out_last fs, ?_⟩
  cases hc : fs.files p with
  | none =>
      rw [fix_file_none fs p f hc]
      simp [unchangedAt, hc]
  | some c =>
      by_cases h1 : applyRules f c = c
      · rw [fix_file_unchanged fs p f c hc h1]
        simp [unchangedAt, hc, h1]
      · by_cases h2 : fs.openWFail p = true
        · rw [fix_file_openWFail fs p f c hc h1 h2]
          simp [unchangedAt, hc, h1]
        · by_cases h3 : fs.writeFail p = true
          · rw [fix_file_writeFail fs p f c hc h1 (by simpa using h2) h3]
            simp [unchangedAt, hc, h1]
          · rw [fix_file_write fs p f c hc h1 (by simpa using h2) (by simpa using h3)]
            simp [unchangedAt, hc, h1]

/-- C2 (counterexample): one run of the carousel rule on its target line
yields the line plus the guard, but the unanchored pattern still matches that
two-line output, so a second `fix_file` run on the patched file rewrites it
again and returns true instead of leaving it unchanged with false. -/
theorem C2_counterexample :
    applyRules carouselFixes carouselLine = carouselLine ++ carouselGuard ∧
    applyRules carouselFixes (carouselLine ++ carouselGuard)
      ≠ carouselLine ++ carouselGuard ∧
    (fix_file fsPatchedCarousel carouselPath carouselFixes).changed = true := by
  exact ⟨by decide, by decide, by decide⟩

/-- C2 (amended): after one run the content is the original line followed
immediately by the inserted guard; but the pattern, which is not anchored to
the end of the line, still matches the patched text, so a second run appends
the guard a second time and reports the file as changed. -/
theorem C2_second_run_stacks :
    applyRules carouselFixes carouselLine = carouselLine ++ carouselGuard ∧
    (matchAt (carouselLine ++ carouselGuard).data
      (litRe "const currentID = featuredIDs[currentIndex];") 0).isSome = true ∧
    applyRules carouselFixes (carouselLine ++ carouselGuard)
      = carouselLine ++ carouselGuard ++ carouselGuard ∧
    (fix_file fsPatchedCarousel carouselPath carouselFixes).fs.files carouselPath
      = some (carouselLine ++ carouselGuard ++ carouselGuard) := by
  exact ⟨by decide, by decide, by decide, by decide⟩

/-- C3 (confirmed): with a readable file and succeeding writes, `fix_file`
compares the folded buffer with the original: if equal it performs no write
and returns false; if different it stores the final buffer and returns true;
and when no rule matches anywhere in the content it returns false leaving the
filesystem identical. -/
theorem C3_compare_then_write : ∀ (fs : FS) (p : String)
    (f : List (Regex × String)) (c : String),
    fs.files p = some c → fs.openWFail p = false → fs.writeFail p = false →
    ((applyRules f c = c →
        fix_file fs p f =
          { fs := fs, changed := false, out := [], log := [FsEvent.read p] }) ∧
     (applyRules f c ≠ c →
        (fix_file fs p f).changed = true ∧
        (fix_file fs p f).fs.files p = some (applyRules f c)) ∧
     ((∀ pr ∈ f, ∀ i, matchAt c.data pr.1 i = none) →
        (fix_file fs p f).changed = false ∧ (fix_file fs p f).fs = fs)) := by
  intro fs p f c h hw1 hw2
  refine ⟨fun h1 => fix_file_unchanged fs p f c h h1, ?_, ?_⟩
  · intro h1
    rw [fix_file_write fs p f c h h1 hw1 hw2]
    exact ⟨rfl, by simp [setFile]⟩
  · intro hnm
    rw [fix_file_unchanged fs p f c h (applyRules_noMatch f c hnm)]
    exact ⟨rfl, rfl⟩

/-- Witness for C3 at a concrete input: an empty rule list leaves the file
"x" unchanged and performs no write. -/
theorem C3_witness :
    (fix_file fsAllX "a" []).changed = false ∧ (fix_file fsAllX "a" []).fs = fsAllX := by
  have h := (C3_compare_then_write fsAllX "a" [] "x" rfl rfl rfl).1 rfl
  exact ⟨by rw [h], by rw [h]⟩

/-- C4 (confirmed): a read failure is converted into the printed diagnostic
naming the path and the cause with a false return; a write-side failure
likewise prints the diagnostic and returns false; and the run always reaches
its completion marker whatever the filesystem does. -/
theorem C4_error_handling : ∀ (fs : FS) (p : String) (f : List (Regex × String)),
    (fs.files p = none →
       fix_file fs p f =
         { fs := fs, changed := false
           out := ["Error fixing " ++ p ++ ": " ++ fs.errMsg p]
           log := [FsEvent.read p] }) ∧
    (∀ c, fs.files p = some c → applyRules f c ≠ c →
       (fs.openWFail p = true ∨ fs.writeFail p = true) →
       (fix_file fs p f).changed = false ∧
       (fix_file fs p f).out = ["Error fixing " ++ p ++ ": " ++ fs.errMsg p]) ∧
    ((driver fs).out.getLast? = some "\nDone!") := by
  intro fs p f
  refine ⟨fun h => fix_file_none fs p f h, ?_, driver_out_last fs⟩
  intro c h h1 h2
  by_cases h3 : fs.openWFail p = true
  · rw [fix_file_openWFail fs p f c h h1 h3]; exact ⟨rfl, rfl⟩
  · rcases h2 with h2 | h2
    · exact absurd h2 h3
    · rw [fix_file_writeFail fs p f c h h1 (by simpa using h3) h2]; exact ⟨rfl, rfl⟩

/-- Witness for C4 at a concrete input: with every read raising, the carousel
entry returns false and the run still ends with the completion marker. -/
theorem C4_witness :
    (fix_file fsReadFail carouselPath carouselFixes).changed = false ∧
    (driver fsReadFail).out.getLast? = some "\nDone!" := by
  have h := C4_error_handling fsReadFail carouselPath carouselFixes
  exact ⟨by rw [h.1 rfl], h.2.2⟩

/-- C5 (confirmed): rules compose sequentially — applying the first `i + 1`
rules equals applying rule `i + 1` to the result of the first `i` — and the
buffer a changed file is rewritten with is the left fold of the substitution
over the whole rule list starting from the original content. -/
theorem C5_sequential_fold : ∀ (f : List (Regex × String)) (c : String) (i : Nat)
    (h : i < f.length),
    (applyRules (f.take (i + 1)) c
      = re_sub (f.get ⟨i, h⟩).1 (f.get ⟨i, h⟩).2 (applyRules (f.take i) c)) ∧
    ∀ (fs : FS) (p : String), fs.files p = some c → fs.openWFail p = false →
      fs.writeFail p = false → applyRules f c ≠ c →
      (fix_file fs p f).fs.files p
        = some (f.foldl (fun acc pr => re_sub pr.1 pr.2 acc) c) := by
  intro f c i h
  constructor
  · unfold applyRules
    rw [List.take_succ, List.foldl_append, List.getElem?_eq_getElem h]
    simp [List.get_eq_getElem]
  · intro fs p hf hw1 hw2 hne
    rw [fix_file_write fs p f c hf hne hw1 hw2]
    simp [setFile]
    rfl

/-- Witness for C5 at a concrete input: the two heatmap rules on the line the
second rule targets. -/
theorem C5_witness :
    (applyRules (heatmapFixes.take 2) "const formattedDate = date;"
      = re_sub (heatmapFixes.get ⟨1, by decide⟩).1 (heatmapFixes.get ⟨1, by decide⟩).2
          (applyRules (heatmapFixes.take 1) "const formattedDate = date;")) ∧
    (fix_file fsHeatmap "components/charts/heatmap-calendar.tsx" heatmapFixes).fs.files
        "components/charts/heatmap-calendar.tsx"
      = some (heatmapFixes.foldl (fun acc pr => re_sub pr.1 pr.2 acc)
          "const formattedDate = date;") := by
  have h := C5_sequential_fold heatmapFixes "const formattedDate = date;" 1 (by decide)
  exact ⟨h.1, h.2 fsHeatmap "components/charts/heatmap-calendar.tsx" rfl rfl rfl (by decide)⟩

/-- C6 (confirmed): each single rule application is a global, multiline
substitution.  For every pattern, replacement and buffer, the result replaces
every non-overlapping leftmost match of the buffer's match decomposition and
copies everything in between (the specification-level replacement); matching
a fully literal pattern succeeds exactly at the occurrences of its word; for
a literal pattern with two planted occurrences and no other, both occurrences
are replaced, not just the first; and the line anchors follow MULTILINE
semantics, matching at line boundaries (just after or just before a newline)
rather than only at the ends of the buffer. -/
theorem C6_global_multiline :
    (∀ (r : Regex) (repl s : List Char) (L : List (Nat × Nat)),
       MatchChain r s 0 L →
       re_sub r ⟨repl⟩ ⟨s⟩ = ⟨replaceMatches repl s 0 L⟩) ∧
    (∀ (s w : List Char) (i : Nat),
       matchAt s (w.map RTok.lit) i
         = if occursAt w s i then some (i + w.length) else none) ∧
    (∀ (w a b c repl : List Char), w ≠ [] →
       (∀ p, p < a.length → ¬ occursAt w (a ++ (w ++ (b ++ (w ++ c)))) p) →
       (∀ p, p < a.length + w.length + b.length →
          a.length + w.length ≤ p → ¬ occursAt w (a ++ (w ++ (b ++ (w ++ c)))) p) →
       (∀ p, p < (a ++ (w ++ (b ++ (w ++ c)))).length + 1 →
          a.length + w.length + b.length + w.length ≤ p →
          ¬ occursAt w (a ++ (w ++ (b ++ (w ++ c)))) p) →
       re_sub (litRe ⟨w⟩) ⟨repl⟩ ⟨a ++ (w ++ (b ++ (w ++ c)))⟩
         = ⟨a ++ (repl ++ (b ++ (repl ++ c)))⟩) ∧
    (∀ (s : List Char) (r : Regex) (i : Nat),
       matchAt s (RTok.bol :: r) i
         = if i = 0 ∨ s[i - 1]? = some '\n' then matchAt s r i else none) ∧
    (∀ (s : List Char) (r : Regex) (i : Nat),
       matchAt s (RTok.eol :: r) i
         = if i = s.length ∨ s[i]? = some '\n' then matchAt s r i else none) :=
  ⟨re_sub_chain, fun s w i => matchAt_lits s w i, re_sub_two_occurrences,
    matchAt_bol, matchAt_eol⟩

/-- Witness for C6 at a concrete input: the interactive-charts rule applied
to a buffer holding two occurrences of its target rewrites both, not only the
first. -/
theorem C6_witness :
    re_sub (litRe ⟨"miningStats.difficulty".data⟩) ⟨"miningStats?.difficulty".data⟩
        ⟨"x = ".data ++ ("miningStats.difficulty".data ++
          ("; y = ".data ++ ("miningStats.difficulty".data ++ ";".data)))⟩
      = ⟨"x = ".data ++ ("miningStats?.difficulty".data ++
          ("; y = ".data ++ ("miningStats?.difficulty".data ++ ";".data)))⟩ :=
  C6_global_multiline.2.2.1 "miningStats.difficulty".data "x = ".data
    "; y = ".data ";".data "miningStats?.difficulty".data
    (by decide) (by decide) (by decide) (by decide)

/-- C7 (confirmed): the table's keys are pairwise distinct, so each file is
processed once; a `fix_file` call never touches the stored content of any
other path; and it leaves the filesystem entirely unchanged when the folded
buffer equals the original content or the read failed. -/
theorem C7_rewrite_at_most_once :
    ((file_fixes.map Prod.fst).Nodup) ∧
    (∀ (fs : FS) (p : String) (f : List (Regex × String)) (q : String), q ≠ p →
       (fix_file fs p f).fs.files q = fs.files q) ∧
    (∀ (fs : FS) (p : String) (f : List (Regex × String)) (c : String),
       fs.files p = some c → applyRules f c = c → (fix_file fs p f).fs = fs) ∧
    (∀ (fs : FS) (p : String) (f : List (Regex × String)),
       fs.files p = none → (fix_file fs p f).fs = fs) := by
  refine ⟨by decide, fix_file_files_of_ne, ?_, ?_⟩
  · intro fs p f c h hc
    rw [fix_file_unchanged fs p f c h hc]
  · intro fs p f h
    rw [fix_file_none fs p f h]

/-- Witness for C7 at a concrete input: fixing the breadcrumb file does not
touch an unrelated path. -/
theorem C7_witness :
    (fix_file fsAllX "components/ui/breadcrumb.tsx" breadcrumbFixes).fs.files "other.txt"
      = fsAllX.files "other.txt" :=
  C7_rewrite_at_most_once.2.1 fsAllX "components/ui/breadcrumb.tsx" breadcrumbFixes
    "other.txt" (by decide)

/-- C8 (counterexample): starting from a filesystem whose carousel file holds
the target line, the second driver run again reports that file as fixed and
stacks the guard a second time — it does not report every file unchanged. -/
theorem C8_counterexample :
    ((driver fsCarousel).fs.files carouselPath
        = fsPatchedCarousel.files carouselPath) ∧
    ("✓ Fixed components/featured-verusids-carousel.tsx"
        ∈ (driver fsPatchedCarousel).out) ∧
    (driver fsPatchedCarousel).fs.files carouselPath
      = some (carouselLine ++ carouselGuard ++ carouselGuard) := by
  exact ⟨by decide, by decide, by decide⟩

/-- C8 (amended): the run is not idempotent, and the claim's proviso fails
for the actual table — the carousel rule's replacement itself contains a
match of the rule's own pattern — so the second run rewrites the already
patched file again and returns true. -/
theorem C8_not_idempotent :
    (matchAt ("const currentID = featuredIDs[currentIndex];\n\n  if (!currentID) return null;").data
        (litRe "const currentID = featuredIDs[currentIndex];") 0).isSome = true ∧
    (driver fsCarousel).fs.files carouselPath = some (carouselLine ++ carouselGuard) ∧
    (fix_file fsPatchedCarousel carouselPath carouselFixes).out = [] ∧
    ("✓ Fixed components/featured-verusids-carousel.tsx"
        ∈ (driver fsPatchedCarousel).out) := by
  exact ⟨by decide, by decide, by decide, by decide⟩

/-- C9 (confirmed): every filesystem access of a run is on a key of the
static table, and the run leaves the stored content of every other path
unchanged. -/
theorem C9_frame : ∀ fs : FS,
    (∀ ev ∈ (driver fs).log, ev.path ∈ file_fixes.map Prod.fst) ∧
    (∀ q, q ∉ file_fixes.map Prod.fst → (driver fs).fs.files q = fs.files q) := by
  intro fs
  constructor
  · intro ev hev
    have hlog : ev ∈ (file_fixes.foldl runEntry
        { fs := fs, out := ["Applying intelligent fixes..."], log := [] }).log := hev
    rcases foldl_runEntry_log file_fixes _ ev hlog with h | ⟨e, he, hp⟩
    · simp at h
    · rw [hp]
      exact List.mem_map_of_mem Prod.fst he
  · intro q hq
    have hne : ∀ e ∈ file_fixes, q ≠ e.1 := by
      intro e he heq
      exact hq (heq ▸ List.mem_map_of_mem Prod.fst he)
    exact foldl_runEntry_files q file_fixes
      { fs := fs, out := ["Applying intelligent fixes..."], log := [] } hne

/-- Witness for C9 at a concrete input: a path outside the table keeps its
content across a full run. -/
theorem C9_witness : (driver fsAllX).fs.files "README.md" = some "x" := by
  have h := (C9_frame fsAllX).2 "README.md" (by decide)
  rw [h]
  rfl

/-- C10 (confirmed): when the content changed, the open for write succeeded
(truncating the file) and the write itself raises, `fix_file` returns false
and prints the diagnostic, yet the file on disk is left empty — neither the
original content nor the patched buffer. -/
theorem C10_failed_write_truncates : ∀ (fs : FS) (p : String)
    (f : List (Regex × String)) (c : String),
    fs.files p = some c → applyRules f c ≠ c → fs.openWFail p = false →
    fs.writeFail p = true → c ≠ "" → applyRules f c ≠ "" →
    (fix_file fs p f).changed = false ∧
    (fix_file fs p f).out = ["Error fixing " ++ p ++ ": " ++ fs.errMsg p] ∧
    (fix_file fs p f).fs.files p = some "" ∧
    (fix_file fs p f).fs.files p ≠ some c ∧
    (fix_file fs p f).fs.files p ≠ some (applyRules f c) := by
  intro fs p f c h h1 h2 h3 hc hac
  rw [fix_file_writeFail fs p f c h h1 h2 h3]
  have hp : (setFile fs p "").files p = some "" := by simp [setFile]
  refine ⟨rfl, rfl, hp, ?_, ?_⟩
  · show (setFile fs p "").files p ≠ some c
    rw [hp]
    intro hbad
    exact hc (Option.some.inj hbad).symm
  · show (setFile fs p "").files p ≠ some (applyRules f c)
    rw [hp]
    intro hbad
    exact hac (Option.some.inj hbad).symm

/-- Witness for C10 at a concrete input: a full disk while rewriting the
carousel file leaves it empty although `fix_file` returned false. -/
theorem C10_witness :
    (fix_file fsDiskFull carouselPath carouselFixes).changed = false ∧
    (fix_file fsDiskFull carouselPath carouselFixes).fs.files carouselPath = some "" := by
  have h := C10_failed_write_truncates fsDiskFull carouselPath carouselFixes carouselLine
    rfl (by decide) rfl rfl (by decide) (by decide)
  exact ⟨h.1, h.2.2.1⟩
